import Mathlib

/-! The `core/image` block (`src/blocks/library/image/index.js`).

A shallow embedding of the image block definition: the alignment toggle, the
toolbar controls, the wrapper props, and the two view functions `edit` and
`save`, followed by the properties proved about them.

Conventions of the embedding.

* A JavaScript value that is "a string or `undefined`" is an `Option String`
  (`none` is `undefined`).  The block attributes `url`, `alt`, `align` have
  this type; `caption` is `undefined`, a string, or an array of nodes.
* A host callback (`setAttributes`, `setFocus`) is a state transformer
  `arg → σ → σ` over an arbitrary host state `σ`; a handler that calls it is
  a function `σ → σ`.  Instantiating `σ` with a call log gives the sequence of
  calls made; instantiating it with the attributes gives the merge setter.
* An element tree (`Node`, `View`) is what the JSX expressions of the source
  build.  Turning a tree into HTML text and parsing it back is done by the
  host and is not part of this file.
-/

namespace ImageBlock

/-! ## Values -/

/-- A JavaScript primitive, as stored in the fields of a focus descriptor or
of a wrapper-props object.  Numbers are integers; `NaN` is not represented, so
strict equality `===` on `Prim` is plain equality. -/
inductive Prim where
  | undefined
  | null
  | bool (b : Bool)
  | num (n : Int)
  | str (s : String)
  deriving DecidableEq, Repr

/-- A plain JavaScript object with string keys and primitive values: a finite
map with unique keys. -/
abbrev Obj := AList (fun _ : String => Prim)

/-- Property read `o.k`: the value stored under `k`, `undefined` when the key
is absent. -/
def Obj.get (o : Obj) (k : String) : Prim :=
  (o.lookup k).getD Prim.undefined

/-- Object literal with a spread, `{ ...target, ...source }`: every own
property of `source` is written over `target`, so on a shared key the value of
`source` is kept. -/
def Obj.spread (target source : Obj) : Obj :=
  source ∪ target

/-- The string-or-undefined value `v` as a primitive. -/
def toPrim : Option String → Prim
  | none => Prim.undefined
  | some s => Prim.str s

/-- Truthiness of a string-or-undefined value: `undefined` and the empty
string are falsy. -/
def strTruthy : Option String → Bool
  | none => false
  | some s => s != ""

/-- A focus value: `undefined`, `null`, or a focus descriptor object. -/
inductive FocusVal where
  | undefined
  | null
  | obj (o : Obj)
  deriving DecidableEq

/-- Truthiness of a focus value (`!! focus`): every object is truthy. -/
def FocusVal.truthy : FocusVal → Bool
  | .undefined => false
  | .null => false
  | .obj _ => true

/-- Property read `focus.editable`; the source only evaluates it on a truthy
focus value. -/
def FocusVal.editable : FocusVal → Prim
  | .obj o => o.get "editable"
  | _ => Prim.undefined

/-- The own enumerable properties copied by a spread `...focusValue`:
`undefined` and `null` contribute nothing. -/
def FocusVal.ownProps : FocusVal → Obj
  | .obj o => o
  | _ => ∅

/-- An element tree as built by JSX for host (DOM) elements: text, or an
element with a tag, props and children.  A prop whose value is `undefined`
is kept in the list with value `none`; it produces no attribute. -/
inductive Node where
  | text (s : String)
  | elem (tag : String) (props : List (String × Option String)) (children : List Node)

/-- The value of the `caption` attribute: `undefined`, a string, or an array
of nodes (what the `children` extraction produces). -/
inductive Caption where
  | undefined
  | str (s : String)
  | nodes (xs : List Node)

/-- Truthiness of a caption value: `undefined` and `''` are falsy, every
array (also the empty one) is truthy. -/
def Caption.truthy : Caption → Bool
  | .undefined => false
  | .str s => s != ""
  | .nodes _ => true

/-- Property read `caption.length` of a string or an array.  The source reads
it only on a truthy caption and only compares it with zero; the length of a
string is zero exactly when the string is empty, whatever the unit counted. -/
def Caption.length : Caption → Nat
  | .undefined => 0
  | .str s => s.length
  | .nodes xs => xs.length

/-- The child nodes produced by the JSX child expression `{ caption }`: a
string is one text node, an array contributes its items. -/
def Caption.children : Caption → List Node
  | .undefined => []
  | .str s => [Node.text s]
  | .nodes xs => xs

/-- A caption is empty when it is `undefined`, the empty string or the empty
array. -/
def Caption.Empty (c : Caption) : Prop :=
  c = Caption.undefined ∨ c = Caption.str "" ∨ c = Caption.nodes []

/-- A caption is non-empty when it is a non-empty string or a non-empty
array. -/
def Caption.NonEmpty (c : Caption) : Prop :=
  (∃ s, s ≠ "" ∧ c = Caption.str s) ∨ (∃ x xs, c = Caption.nodes (x :: xs))

instance Caption.decidableEmpty (c : Caption) : Decidable c.Empty :=
  match c with
  | .undefined => isTrue (Or.inl rfl)
  | .str s =>
    if h : s = "" then isTrue (Or.inr (Or.inl (by rw [h])))
    else isFalse (by
      rintro (h1 | h1 | h1)
      · cases h1
      · injection h1 with h1
        exact h h1
      · cases h1)
  | .nodes [] => isTrue (Or.inr (Or.inr rfl))
  | .nodes (_ :: _) => isFalse (by
      rintro (h1 | h1 | h1) <;> cases h1)

instance Caption.decidableNonEmpty (c : Caption) : Decidable c.NonEmpty :=
  match c with
  | .undefined => isFalse (by
      rintro (⟨_, _, h1⟩ | ⟨_, _, h1⟩) <;> cases h1)
  | .str s =>
    if h : s = "" then isFalse (by
      rintro (⟨t, ht, h1⟩ | ⟨_, _, h1⟩)
      · injection h1 with h1
        exact ht (h1 ▸ h)
      · cases h1)
    else isTrue (Or.inl ⟨s, h, rfl⟩)
  | .nodes [] => isFalse (by
      rintro (⟨_, _, h1⟩ | ⟨_, _, h1⟩) <;> cases h1)
  | .nodes (x :: xs) => isTrue (Or.inr ⟨x, xs, rfl⟩)

/-! ## Attributes and patches -/

/-- The block attributes. -/
structure Attributes where
  url : Option String
  alt : Option String
  caption : Caption
  align : Option String

/-- One `key: value` entry of an object passed to `setAttributes`. -/
inductive Entry where
  | url (v : Option String)
  | alt (v : Option String)
  | caption (v : Caption)
  | align (v : Option String)

/-- The key of an entry. -/
def Entry.key : Entry → String
  | .url _ => "url"
  | .alt _ => "alt"
  | .caption _ => "caption"
  | .align _ => "align"

/-- The object passed to `setAttributes`: its entries in source order. -/
abbrev Patch := List Entry

/-- Writing one entry into the attributes. -/
def Attributes.set (a : Attributes) : Entry → Attributes
  | .url v => { a with url := v }
  | .alt v => { a with alt := v }
  | .caption v => { a with caption := v }
  | .align v => { a with align := v }

/-- Modelled from the spec: the host attribute setter, which is not part of
the block file; the spec describes it as a merge of the patch into the
current attributes, (current state, patch) to new state. -/
def merge (p : Patch) (a : Attributes) : Attributes :=
  p.foldl Attributes.set a

/-- A setter that records each call: the host state is the list of arguments
received so far, oldest first. -/
def record {α : Type} (x : α) (log : List α) : List α :=
  log ++ [x]

/-! ## `toggleAlignment` -/

/-- The function `toggleAlignment( align )`: the returned handler reads
`attributes.align`, and calls `setAttributes( { align: nextAlign } )`. -/
def toggleAlignment {σ : Type} (align : Option String) :
    Attributes → (Patch → σ → σ) → σ → σ :=
  fun attributes setAttributes =>
    let nextAlign := if attributes.align = align then none else align
    setAttributes [Entry.align nextAlign]

/-! ## Controls -/

/-- A toolbar control. -/
structure Control (σ : Type) where
  icon : String
  title : String
  isActive : Attributes → Bool
  onClick : Attributes → (Patch → σ → σ) → σ → σ

/-- The `controls` array of the block; `i18n` is the translation function
`__` of the host. -/
def controls (σ : Type) (i18n : String → String) : List (Control σ) :=
  [ { icon := "align-left"
      title := i18n "Align left"
      isActive := fun attributes => decide (some "left" = attributes.align)
      onClick := toggleAlignment (some "left") },
    { icon := "align-center"
      title := i18n "Align center"
      isActive := fun attributes => decide (some "center" = attributes.align)
      onClick := toggleAlignment (some "center") },
    { icon := "align-right"
      title := i18n "Align right"
      isActive := fun attributes => decide (some "right" = attributes.align)
      onClick := toggleAlignment (some "right") },
    { icon := "align-full-width"
      title := i18n "Wide width"
      isActive := fun attributes => decide (some "wide" = attributes.align)
      onClick := toggleAlignment (some "wide") } ]

/-! ## `getEditWrapperProps` -/

/-- The method `getEditWrapperProps( attributes )`; falling off the end of the
function returns `undefined`, here `none`. -/
def getEditWrapperProps (attributes : Attributes) : Option Obj :=
  let align := attributes.align
  if some "left" = align ∨ some "right" = align ∨ some "wide" = align then
    some (AList.singleton "data-align" (toPrim align))
  else
    none

/-! ## `save` and the extraction rules -/

/-- The method `save( { attributes } )`.  The destructuring default
`align = 'none'` applies only when `attributes.align` is `undefined`. -/
def save (attributes : Attributes) : Node :=
  let url := attributes.url
  let alt := attributes.alt
  let caption := attributes.caption
  let align := attributes.align.getD "none"
  let img := Node.elem "img" [("src", url), ("alt", alt), ("className", some ("align" ++ align))] []
  if !caption.truthy || caption.length == 0 then
    img
  else
    Node.elem "figure" [] [img, Node.elem "figcaption" [] caption.children]

mutual
/-- The first element with tag `selector` in document order (the node itself,
then its descendants, parents before children, earlier siblings first).  The
root of a markup fragment is a candidate: the host parses the fragment into a
container and searches below the container. -/
def Node.querySelector (selector : String) : Node → Option Node
  | .text _ => none
  | .elem tag props kids =>
    if tag = selector then some (Node.elem tag props kids)
    else Node.querySelectorList selector kids
/-- The first element with tag `selector` in a list of sibling trees. -/
def Node.querySelectorList (selector : String) : List Node → Option Node
  | [] => none
  | n :: ns =>
    match Node.querySelector selector n with
    | some m => some m
    | none => Node.querySelectorList selector ns
end

/-- Modelled from the spec: the extraction primitive `attr( selector, name )`
of `../../api`, which is not among the sources: the value of attribute `name`
of the element selected by `selector` in a markup fragment, `undefined` when
no element is selected or the element has no such attribute.  The selectors
used by the block are tag names; the selected element is the first match in
document order. -/
def attr (selector name : String) (markup : Node) : Option String :=
  match markup.querySelector selector with
  | some (Node.elem _ props _) => (props.lookup name).join
  | _ => none

/-- Modelled from the spec: the extraction primitive `children( selector )` of
`../../api`, which is not among the sources: the child content of the element
selected by `selector` in a markup fragment, as an array of nodes, and
`undefined` when no element is selected. -/
def children (selector : String) (markup : Node) : Caption :=
  match markup.querySelector selector with
  | some (Node.elem _ _ kids) => Caption.nodes kids
  | _ => Caption.undefined

/-- The `attributes` declaration of the block applied to a markup fragment:
`url: attr( 'img', 'src' )`, `alt: attr( 'img', 'alt' )`,
`caption: children( 'figcaption' )`.  No rule is declared for `align`, which
the host supplies; it is passed through here. -/
def parseAttributes (align : Option String) (markup : Node) : Attributes :=
  { url := attr "img" "src" markup
    alt := attr "img" "alt" markup
    caption := children "figcaption" markup
    align := align }

mutual
/-- The tags of all elements of a tree, in document order. -/
def Node.tags : Node → List String
  | .text _ => []
  | .elem tag _ kids => tag :: Node.tagsList kids
/-- The tags of all elements of a list of sibling trees, in document order. -/
def Node.tagsList : List Node → List String
  | [] => []
  | n :: ns => Node.tags n ++ Node.tagsList ns
end

/-! ## `edit` -/

/-- The element tree returned by `edit`: host elements, the components
`Placeholder`, `Button` and `Editable` with the props the source passes, text,
and the `null` child. -/
inductive View (σ : Type) where
  | text (s : String)
  | null
  | dom (tag : String) (props : List (String × Option String)) (children : List (View σ))
  | placeholder (instructions icon label className : String) (children : List (View σ))
  | button (isLarge : Bool) (children : List (View σ))
  | editable (tagName placeholder : String) (value : Caption) (focus : FocusVal)
      (onFocus : FocusVal → σ → σ) (onChange : Caption → σ → σ)
      (inline inlineToolbar : Bool)

/-- The closure `focusCaption` of `edit`:
`( focusValue ) => setFocus( { editable: 'caption', ...focusValue } )`. -/
def focusCaption {σ : Type} (setFocus : Obj → σ → σ) (focusValue : FocusVal) : σ → σ :=
  setFocus (Obj.spread (AList.singleton "editable" (Prim.str "caption")) focusValue.ownProps)

/-- The method `edit( { attributes, setAttributes, focus, setFocus } )`;
`i18n` is the translation function `__` of the host. -/
def edit {σ : Type} (i18n : String → String) (attributes : Attributes)
    (setAttributes : Patch → σ → σ) (focus : FocusVal) (setFocus : Obj → σ → σ) : View σ :=
  let url := attributes.url
  let alt := attributes.alt
  let caption := attributes.caption
  if !strTruthy url then
    View.placeholder (i18n "Drag image here or insert from media library") "format-image"
      (i18n "Image") "blocks-image"
      [View.button true [View.text (i18n "Insert from Media Library")]]
  else
    View.dom "figure" [("className", some "blocks-image")]
      [ View.dom "img" [("src", url), ("alt", alt)] [],
        if (caption.truthy && decide (caption.length > 0)) || focus.truthy then
          View.editable "figcaption" (i18n "Write caption…") caption
            (if focus.truthy && focus.editable == Prim.str "caption" then focus
             else FocusVal.undefined)
            (focusCaption setFocus)
            (fun value => setAttributes [Entry.caption value])
            true true
        else
          View.null ]

mutual
/-- The props of every `img` element of a view, in document order. -/
def View.imgs {σ : Type} : View σ → List (List (String × Option String))
  | .text _ => []
  | .null => []
  | .dom tag props kids =>
    (if tag = "img" then [props] else []) ++ View.imgsList kids
  | .placeholder _ _ _ _ kids => View.imgsList kids
  | .button _ kids => View.imgsList kids
  | .editable _ _ _ _ _ _ _ _ => []
/-- The props of every `img` element of a list of views. -/
def View.imgsList {σ : Type} : List (View σ) → List (List (String × Option String))
  | [] => []
  | v :: vs => View.imgs v ++ View.imgsList vs
end

mutual
/-- The number of `Editable` elements of a view. -/
def View.editables {σ : Type} : View σ → Nat
  | .text _ => 0
  | .null => 0
  | .dom _ _ kids => View.editablesList kids
  | .placeholder _ _ _ _ kids => View.editablesList kids
  | .button _ kids => View.editablesList kids
  | .editable _ _ _ _ _ _ _ _ => 1
/-- The number of `Editable` elements of a list of views. -/
def View.editablesList {σ : Type} : List (View σ) → Nat
  | [] => 0
  | v :: vs => View.editables v + View.editablesList vs
end

/-! ## Properties of `toggleAlignment` -/

/-- C1: for every alignment value `a`, every attributes object and every
earlier call log, the handler `toggleAlignment a` calls the setter exactly
once: with the patch `{ align: undefined }` when `attributes.align` equals
`a`, and with `{ align: a }` otherwise.  The patch has the single key
`align`.  The same holds for every setter: the handler is one call of it. -/
theorem toggleAlignment_calls_setter (a : Option String) (attributes : Attributes)
    (log : List Patch) :
    (attributes.align = a →
      toggleAlignment a attributes record log = log ++ [[Entry.align none]]) ∧
    (attributes.align ≠ a →
      toggleAlignment a attributes record log = log ++ [[Entry.align a]]) ∧
    (∃ p, toggleAlignment a attributes record log = log ++ [p] ∧
      p.map Entry.key = ["align"]) ∧
    (∀ (σ : Type) (setAttributes : Patch → σ → σ), ∃ p,
      toggleAlignment a attributes setAttributes = setAttributes p ∧
      p.map Entry.key = ["align"]) := by
  refine ⟨?_, ?_, ?_, ?_⟩
  · intro h
    simp [toggleAlignment, record, h]
  · intro h
    simp [toggleAlignment, record, h]
  · exact ⟨[Entry.align (if attributes.align = a then none else a)], rfl, rfl⟩
  · intro σ setAttributes
    exact ⟨[Entry.align (if attributes.align = a then none else a)], rfl, rfl⟩

/-- Witness of C1: toggling `left` on a left-aligned image clears `align`,
toggling `left` on a centred image sets it to `left`. -/
theorem toggleAlignment_calls_setter_witness :
    toggleAlignment (some "left") ⟨some "a.png", some "", Caption.undefined, some "left"⟩
        record [] = [[Entry.align none]] ∧
    toggleAlignment (some "left") ⟨some "a.png", some "", Caption.undefined, some "center"⟩
        record [] = [[Entry.align (some "left")]] :=
  ⟨(toggleAlignment_calls_setter (some "left")
      ⟨some "a.png", some "", Caption.undefined, some "left"⟩ []).1 rfl,
   (toggleAlignment_calls_setter (some "left")
      ⟨some "a.png", some "", Caption.undefined, some "center"⟩ []).2.1 (by decide)⟩

/-- C8: with the setter a merge of the patch into the current attributes, for
every alignment value `a` and every attributes whose `align` differs from `a`,
running the handler `toggleAlignment a` twice in a row, the second run reading
the attributes left by the first, leaves `align` undefined and leaves `url`,
`alt` and `caption` unchanged. -/
theorem toggleAlignment_twice (a : Option String) (attributes : Attributes)
    (h : attributes.align ≠ a) :
    let once := toggleAlignment a attributes merge attributes
    let twice := toggleAlignment a once merge once
    twice.align = none ∧ twice.url = attributes.url ∧ twice.alt = attributes.alt ∧
      twice.caption = attributes.caption := by
  simp [toggleAlignment, merge, Attributes.set, h]

/-- Witness of C8: toggling `left` twice from the unaligned state. -/
theorem toggleAlignment_twice_witness :
    (toggleAlignment (some "left")
      (toggleAlignment (some "left") ⟨some "a.png", some "x", Caption.str "c", none⟩ merge
        ⟨some "a.png", some "x", Caption.str "c", none⟩)
      merge
      (toggleAlignment (some "left") ⟨some "a.png", some "x", Caption.str "c", none⟩ merge
        ⟨some "a.png", some "x", Caption.str "c", none⟩)).align = none :=
  (toggleAlignment_twice (some "left") ⟨some "a.png", some "x", Caption.str "c", none⟩
    (by decide)).1

/-! ## Properties of the controls and of `getEditWrapperProps` -/

/-- C7: the four controls are, in order, those of `left`, `center`, `right`
and `wide`: each reports `isActive` exactly when `align` equals its value (and
its click handler toggles that value).  Hence for every attributes exactly one
control is active when `align` is one of the four values, none is active
otherwise, and never two. -/
theorem isActive_exclusive (σ : Type) (i18n : String → String) (attributes : Attributes) :
    List.Forall₂
      (fun (c : Control σ) (v : String) =>
        (∀ attrs : Attributes, c.isActive attrs = true ↔ attrs.align = some v) ∧
        c.onClick = toggleAlignment (some v))
      (controls σ i18n) ["left", "center", "right", "wide"] ∧
    (attributes.align ∈ [some "left", some "center", some "right", some "wide"] →
      ((controls σ i18n).filter (fun c => c.isActive attributes)).length = 1) ∧
    (attributes.align ∉ [some "left", some "center", some "right", some "wide"] →
      ((controls σ i18n).filter (fun c => c.isActive attributes)).length = 0) ∧
    ((controls σ i18n).filter (fun c => c.isActive attributes)).length ≤ 1 := by
  have key : ∀ v : String, ∀ attrs : Attributes,
      decide (some v = attrs.align) = true ↔ attrs.align = some v := by
    intro v attrs
    simp [eq_comm]
  refine ⟨?_, ?_, ?_, ?_⟩
  · simp only [controls]
    refine List.Forall₂.cons ⟨key _, rfl⟩ (List.Forall₂.cons ⟨key _, rfl⟩
      (List.Forall₂.cons ⟨key _, rfl⟩ (List.Forall₂.cons ⟨key _, rfl⟩ List.Forall₂.nil)))
  · intro h
    simp only [List.mem_cons, List.mem_singleton, List.not_mem_nil, or_false] at h
    rcases h with h | h | h | h <;> simp [controls, h, List.filter]
  · intro h
    simp only [List.mem_cons, List.mem_singleton, List.not_mem_nil, or_false, not_or] at h
    obtain ⟨h1, h2, h3, h4⟩ := h
    simp [controls, List.filter, Ne.symm h1, Ne.symm h2, Ne.symm h3, Ne.symm h4]
  · by_cases h1 : attributes.align = some "left"
    · simp [controls, h1, List.filter]
    by_cases h2 : attributes.align = some "center"
    · simp [controls, h2, List.filter]
    by_cases h3 : attributes.align = some "right"
    · simp [controls, h3, List.filter]
    by_cases h4 : attributes.align = some "wide"
    · simp [controls, h4, List.filter]
    simp [controls, List.filter, Ne.symm h1, Ne.symm h2, Ne.symm h3, Ne.symm h4]

/-- Witness of C7: with `align = 'center'` one control is active, with `align`
undefined none is. -/
theorem isActive_exclusive_witness :
    ((controls Unit id).filter (fun c =>
        c.isActive ⟨some "a.png", none, Caption.undefined, some "center"⟩)).length = 1 ∧
    ((controls Unit id).filter (fun c =>
        c.isActive ⟨some "a.png", none, Caption.undefined, none⟩)).length = 0 :=
  ⟨(isActive_exclusive Unit id ⟨some "a.png", none, Caption.undefined, some "center"⟩).2.1
      (by decide),
   (isActive_exclusive Unit id ⟨some "a.png", none, Caption.undefined, none⟩).2.2.1
      (by decide)⟩

/-- C6: `getEditWrapperProps` returns the object `{ 'data-align': align }`,
whose only key is `data-align`, when `align` is `left`, `right` or `wide`, and
returns `undefined` for every other `align`: `center`, `undefined`, any other
string. -/
theorem getEditWrapperProps_spec (attributes : Attributes) :
    (∀ a : String, a ∈ ["left", "right", "wide"] → attributes.align = some a →
      getEditWrapperProps attributes = some (AList.singleton "data-align" (Prim.str a)) ∧
      (AList.singleton "data-align" (Prim.str a) : Obj).keys = ["data-align"] ∧
      Obj.get (AList.singleton "data-align" (Prim.str a)) "data-align" = Prim.str a) ∧
    (attributes.align ∉ [some "left", some "right", some "wide"] →
      getEditWrapperProps attributes = none) ∧
    (attributes.align = some "center" → getEditWrapperProps attributes = none) ∧
    (attributes.align = none → getEditWrapperProps attributes = none) := by
  have hnone : attributes.align ∉ [some "left", some "right", some "wide"] →
      getEditWrapperProps attributes = none := by
    intro h
    simp only [List.mem_cons, List.mem_singleton, List.not_mem_nil, or_false, not_or] at h
    obtain ⟨h1, h2, h3⟩ := h
    simp [getEditWrapperProps, Ne.symm h1, Ne.symm h2, Ne.symm h3]
  refine ⟨?_, hnone, ?_, ?_⟩
  · intro a ha hal
    simp only [List.mem_cons, List.mem_singleton, List.not_mem_nil, or_false] at ha
    refine ⟨?_, rfl, ?_⟩
    · rcases ha with ha | ha | ha <;> subst ha <;> simp [getEditWrapperProps, hal, toPrim]
    · simp [Obj.get, AList.lookup, AList.singleton, List.dlookup]
  · intro h
    exact hnone (by rw [h]; decide)
  · intro h
    exact hnone (by rw [h]; decide)

/-- Witness of C6: `left` gives `{ 'data-align': 'left' }`, `center` gives
nothing. -/
theorem getEditWrapperProps_spec_witness :
    getEditWrapperProps ⟨some "a.png", none, Caption.undefined, some "left"⟩ =
      some (AList.singleton "data-align" (Prim.str "left")) ∧
    getEditWrapperProps ⟨some "a.png", none, Caption.undefined, some "center"⟩ = none :=
  ⟨((getEditWrapperProps_spec ⟨some "a.png", none, Caption.undefined, some "left"⟩).1
      "left" (by decide) rfl).1,
   (getEditWrapperProps_spec ⟨some "a.png", none, Caption.undefined, some "center"⟩).2.2.1 rfl⟩

/-! ## Properties of `save` -/

/-- The guard of `save` on an empty caption: the image element is returned. -/
theorem save_of_empty (attributes : Attributes) (h : attributes.caption.Empty) :
    save attributes =
      Node.elem "img" [("src", attributes.url), ("alt", attributes.alt),
        ("className", some ("align" ++ attributes.align.getD "none"))] [] := by
  rcases h with h | h | h <;> simp [save, h, Caption.truthy, Caption.length]

/-- The guard of `save` on a non-empty caption: the figure is returned. -/
theorem save_of_nonEmpty (attributes : Attributes) (h : attributes.caption.NonEmpty) :
    save attributes =
      Node.elem "figure" []
        [Node.elem "img" [("src", attributes.url), ("alt", attributes.alt),
          ("className", some ("align" ++ attributes.align.getD "none"))] [],
         Node.elem "figcaption" [] attributes.caption.children] := by
  rcases h with ⟨s, hs, h⟩ | ⟨x, xs, h⟩
  · have hlen : s.length ≠ 0 := by
      intro h0
      exact hs (String.ext (List.eq_nil_of_length_eq_zero h0))
    simp [save, h, Caption.truthy, Caption.length, hs, hlen]
  · simp [save, h, Caption.truthy, Caption.length]

/-- C4: for every attributes whose caption is empty or absent, `save` returns
one `img` element and nothing else (no `figure`), with `src = url`,
`alt = alt` and class `align` followed by `align`, where `none` stands in for
an absent `align`. -/
theorem save_captionless (attributes : Attributes) (h : attributes.caption.Empty) :
    (save attributes).tags = ["img"] ∧
    (∀ a : String, attributes.align = some a →
      save attributes =
        Node.elem "img" [("src", attributes.url), ("alt", attributes.alt),
          ("className", some ("align" ++ a))] []) ∧
    (attributes.align = none →
      save attributes =
        Node.elem "img" [("src", attributes.url), ("alt", attributes.alt),
          ("className", some "alignnone")] []) ∧
    (save { attributes with align := none } =
      save { attributes with align := some "none" }) := by
  refine ⟨?_, ?_, ?_, ?_⟩
  · rw [save_of_empty attributes h]
    simp [Node.tags, Node.tagsList]
  · intro a ha
    rw [save_of_empty attributes h, ha]
    rfl
  · intro ha
    rw [save_of_empty attributes h, ha]
    rfl
  · rw [save_of_empty { attributes with align := none } h,
      save_of_empty { attributes with align := some "none" } h]
    rfl

/-- Witness of C4: the captionless example of the spec, and the three empty
captions. -/
theorem save_captionless_witness :
    save ⟨some "a.png", some "", Caption.undefined, some "none"⟩ =
      Node.elem "img" [("src", some "a.png"), ("alt", some ""),
        ("className", some "alignnone")] [] ∧
    (save ⟨some "a.png", some "", Caption.str "", none⟩).tags = ["img"] ∧
    save ⟨some "a.png", some "", Caption.nodes [], none⟩ =
      Node.elem "img" [("src", some "a.png"), ("alt", some ""),
        ("className", some "alignnone")] [] :=
  ⟨(save_captionless ⟨some "a.png", some "", Caption.undefined, some "none"⟩
      (Or.inl rfl)).2.1 "none" rfl,
   (save_captionless ⟨some "a.png", some "", Caption.str "", none⟩
      (Or.inr (Or.inl rfl))).1,
   (save_captionless ⟨some "a.png", some "", Caption.nodes [], none⟩
      (Or.inr (Or.inr rfl))).2.2.1 rfl⟩

/-- C5: for every attributes whose caption is non-empty, `save` returns a
`figure` element without props whose children are, in order, the `img`
element of the captionless case (`src = url`, `alt = alt`, class `align`
followed by `align`, or `alignnone`) and one `figcaption` element whose
children are the caption: the text of a string caption, the items of an
array caption. -/
theorem save_captioned (attributes : Attributes) (h : attributes.caption.NonEmpty) :
    save attributes =
      Node.elem "figure" []
        [save { attributes with caption := Caption.undefined },
         Node.elem "figcaption" [] attributes.caption.children] ∧
    (∀ a : String, attributes.align = some a →
      save { attributes with caption := Caption.undefined } =
        Node.elem "img" [("src", attributes.url), ("alt", attributes.alt),
          ("className", some ("align" ++ a))] []) ∧
    (attributes.align = none →
      save { attributes with caption := Caption.undefined } =
        Node.elem "img" [("src", attributes.url), ("alt", attributes.alt),
          ("className", some "alignnone")] []) ∧
    (∀ s, attributes.caption = Caption.str s →
      attributes.caption.children = [Node.text s]) ∧
    (∀ xs, attributes.caption = Caption.nodes xs → attributes.caption.children = xs) ∧
    (save attributes).tags =
      "figure" :: "img" :: "figcaption" :: Node.tagsList attributes.caption.children := by
  have himg := save_of_empty { attributes with caption := Caption.undefined } (Or.inl rfl)
  refine ⟨?_, ?_, ?_, ?_, ?_, ?_⟩
  · rw [save_of_nonEmpty attributes h, himg]
  · intro a ha
    rw [himg]
    simp [ha]
  · intro ha
    rw [himg]
    simp [ha]
  · intro s hs
    rw [hs]
    rfl
  · intro xs hxs
    rw [hxs]
    rfl
  · rw [save_of_nonEmpty attributes h]
    simp [Node.tags, Node.tagsList]

/-- Witness of C5: a right-aligned image with a two-node caption. -/
theorem save_captioned_witness :
    save ⟨some "a.png", some "x", Caption.nodes [Node.text "Hello ",
        Node.elem "em" [] [Node.text "world"]], some "right"⟩ =
      Node.elem "figure" []
        [save ⟨some "a.png", some "x", Caption.undefined, some "right"⟩,
         Node.elem "figcaption" [] [Node.text "Hello ",
           Node.elem "em" [] [Node.text "world"]]] :=
  (save_captioned ⟨some "a.png", some "x", Caption.nodes [Node.text "Hello ",
      Node.elem "em" [] [Node.text "world"]], some "right"⟩
    (Or.inr ⟨_, _, rfl⟩)).1

/-! ## Round trip through the extraction rules -/

/-- C2: for every attributes whose caption is empty or absent, and whatever
`align` is, applying the declared extraction rules to the markup returned by
`save` yields the original `url`, the original `alt` and an empty caption;
saving the extracted attributes again gives the same markup. -/
theorem roundtrip_captionless (attributes : Attributes) (h : attributes.caption.Empty) :
    attr "img" "src" (save attributes) = attributes.url ∧
    attr "img" "alt" (save attributes) = attributes.alt ∧
    (children "figcaption" (save attributes)).Empty ∧
    (∀ align, (parseAttributes align (save attributes)).url = attributes.url ∧
      (parseAttributes align (save attributes)).alt = attributes.alt ∧
      (parseAttributes align (save attributes)).caption.Empty) ∧
    save (parseAttributes attributes.align (save attributes)) = save attributes := by
  have hsrc : attr "img" "src" (save attributes) = attributes.url := by
    rw [save_of_empty attributes h]
    simp [attr, Node.querySelector, List.lookup]
  have halt : attr "img" "alt" (save attributes) = attributes.alt := by
    rw [save_of_empty attributes h]
    simp [attr, Node.querySelector, List.lookup]
  have hcap : children "figcaption" (save attributes) = Caption.undefined := by
    rw [save_of_empty attributes h]
    simp [children, Node.querySelector, Node.querySelectorList]
  refine ⟨hsrc, halt, Or.inl hcap, ?_, ?_⟩
  · intro align
    exact ⟨hsrc, halt, Or.inl hcap⟩
  · have hp : parseAttributes attributes.align (save attributes) =
        ⟨attributes.url, attributes.alt, Caption.undefined, attributes.align⟩ := by
      simp only [parseAttributes, hsrc, halt, hcap]
    rw [hp, save_of_empty _ (Or.inl rfl), save_of_empty attributes h]

/-- Witness of C2: an image with the empty-string caption, centred. -/
theorem roundtrip_captionless_witness :
    attr "img" "src" (save ⟨some "a.png", some "A", Caption.str "", some "center"⟩) =
      some "a.png" ∧
    attr "img" "alt" (save ⟨some "a.png", some "A", Caption.str "", some "center"⟩) =
      some "A" ∧
    (children "figcaption"
      (save ⟨some "a.png", some "A", Caption.str "", some "center"⟩)).Empty :=
  ⟨(roundtrip_captionless ⟨some "a.png", some "A", Caption.str "", some "center"⟩
      (Or.inr (Or.inl rfl))).1,
   (roundtrip_captionless ⟨some "a.png", some "A", Caption.str "", some "center"⟩
      (Or.inr (Or.inl rfl))).2.1,
   (roundtrip_captionless ⟨some "a.png", some "A", Caption.str "", some "center"⟩
      (Or.inr (Or.inl rfl))).2.2.1⟩

/-- C3: for every attributes whose caption is non-empty, `save` returns a
`figure` wrapper, and applying the declared extraction rules to that markup
recovers the same `url`, the same `alt` and the same caption content: the
children of the saved `figcaption`, which for an array caption is the caption
itself.  Nothing is assumed about the caption content, which may contain
`img` and `figcaption` elements of its own. -/
theorem roundtrip_captioned (attributes : Attributes) (h : attributes.caption.NonEmpty) :
    (∃ kids, save attributes = Node.elem "figure" [] kids) ∧
    attr "img" "src" (save attributes) = attributes.url ∧
    attr "img" "alt" (save attributes) = attributes.alt ∧
    children "figcaption" (save attributes) = Caption.nodes attributes.caption.children ∧
    (∀ xs, attributes.caption = Caption.nodes xs →
      children "figcaption" (save attributes) = attributes.caption) ∧
    save (parseAttributes attributes.align (save attributes)) = save attributes := by
  have hsrc : attr "img" "src" (save attributes) = attributes.url := by
    rw [save_of_nonEmpty attributes h]
    simp [attr, Node.querySelector, Node.querySelectorList, List.lookup]
  have halt : attr "img" "alt" (save attributes) = attributes.alt := by
    rw [save_of_nonEmpty attributes h]
    simp [attr, Node.querySelector, Node.querySelectorList, List.lookup]
  have hcap : children "figcaption" (save attributes) =
      Caption.nodes attributes.caption.children := by
    rw [save_of_nonEmpty attributes h]
    simp [children, Node.querySelector, Node.querySelectorList]
  have hne : (Caption.nodes attributes.caption.children).NonEmpty := by
    rcases h with ⟨s, _, hs⟩ | ⟨x, xs, hx⟩
    · exact Or.inr ⟨Node.text s, [], by rw [hs]; rfl⟩
    · exact Or.inr ⟨x, xs, by rw [hx]; rfl⟩
  refine ⟨⟨_, save_of_nonEmpty attributes h⟩, hsrc, halt, hcap, ?_, ?_⟩
  · intro xs hxs
    rw [hcap, hxs]
    rfl
  · have hp : parseAttributes attributes.align (save attributes) =
        ⟨attributes.url, attributes.alt, Caption.nodes attributes.caption.children,
          attributes.align⟩ := by
      simp only [parseAttributes, hsrc, halt, hcap]
    rw [hp, save_of_nonEmpty _ hne, save_of_nonEmpty attributes h]
    rfl

/-- Witness of C3: a caption that itself contains an `img` and a
`figcaption` element; the outer image and the outer caption are the ones
extracted. -/
theorem roundtrip_captioned_witness :
    attr "img" "src" (save ⟨some "a.png", some "A",
        Caption.nodes [Node.elem "img" [("src", some "b.png"), ("alt", some "B")] [],
          Node.elem "figcaption" [] [Node.text "inner"]], none⟩) = some "a.png" ∧
    attr "img" "alt" (save ⟨some "a.png", some "A",
        Caption.nodes [Node.elem "img" [("src", some "b.png"), ("alt", some "B")] [],
          Node.elem "figcaption" [] [Node.text "inner"]], none⟩) = some "A" ∧
    children "figcaption" (save ⟨some "a.png", some "A",
        Caption.nodes [Node.elem "img" [("src", some "b.png"), ("alt", some "B")] [],
          Node.elem "figcaption" [] [Node.text "inner"]], none⟩) =
      Caption.nodes [Node.elem "img" [("src", some "b.png"), ("alt", some "B")] [],
        Node.elem "figcaption" [] [Node.text "inner"]] :=
  ⟨(roundtrip_captioned ⟨some "a.png", some "A",
      Caption.nodes [Node.elem "img" [("src", some "b.png"), ("alt", some "B")] [],
        Node.elem "figcaption" [] [Node.text "inner"]], none⟩ (Or.inr ⟨_, _, rfl⟩)).2.1,
   (roundtrip_captioned ⟨some "a.png", some "A",
      Caption.nodes [Node.elem "img" [("src", some "b.png"), ("alt", some "B")] [],
        Node.elem "figcaption" [] [Node.text "inner"]], none⟩ (Or.inr ⟨_, _, rfl⟩)).2.2.1,
   (roundtrip_captioned ⟨some "a.png", some "A",
      Caption.nodes [Node.elem "img" [("src", some "b.png"), ("alt", some "B")] [],
        Node.elem "figcaption" [] [Node.text "inner"]], none⟩ (Or.inr ⟨_, _, rfl⟩)).2.2.2.1⟩

/-! ## Properties of `edit` -/

/-- The caption test of `edit`, `caption && caption.length > 0`, holds exactly
on the non-empty captions. -/
theorem caption_test_iff (caption : Caption) :
    (caption.truthy && decide (caption.length > 0)) = true ↔ caption.NonEmpty := by
  cases caption with
  | undefined =>
    simp [Caption.truthy, Caption.NonEmpty]
  | str s =>
    constructor
    · intro h
      simp [Caption.truthy] at h
      exact Or.inl ⟨s, h.1, rfl⟩
    · rintro (⟨t, ht, h⟩ | ⟨x, xs, h⟩)
      · injection h with h
        subst h
        have hlen : 0 < s.length := by
          rcases Nat.eq_zero_or_pos s.length with h0 | h0
          · exact absurd (String.ext (List.eq_nil_of_length_eq_zero h0)) ht
          · exact h0
        simp [Caption.truthy, Caption.length, ht, hlen]
      · cases h
  | nodes xs =>
    constructor
    · intro h
      simp [Caption.truthy, Caption.length] at h
      cases xs with
      | nil => simp at h
      | cons x xs => exact Or.inr ⟨x, xs, rfl⟩
    · rintro (⟨t, _, h⟩ | ⟨x, xs, h⟩)
      · cases h
      · injection h with h
        subst h
        simp [Caption.truthy, Caption.length]

/-- C9: `edit` with a non-empty `url` returns the `figure` whose children are
the `img` (`src = url`, `alt = alt`), the only image of the view, and one more
child, which is the caption `Editable` (tag `figcaption`, value the caption)
when the caption is non-empty or the focus value is truthy, and `null`
otherwise: the view contains a caption `Editable` exactly in the first case.
With an empty or absent `url` it returns the placeholder, which contains no
`img` and no `Editable`. -/
theorem edit_caption_visibility {σ : Type} (i18n : String → String)
    (attributes : Attributes) (setAttributes : Patch → σ → σ) (focus : FocusVal)
    (setFocus : Obj → σ → σ) :
    (∀ u : String, attributes.url = some u → u ≠ "" →
      (∃ captionPart, edit i18n attributes setAttributes focus setFocus =
        View.dom "figure" [("className", some "blocks-image")]
          [View.dom "img" [("src", attributes.url), ("alt", attributes.alt)] [],
           captionPart] ∧
        ((attributes.caption.NonEmpty ∨ focus.truthy = true) →
          ∃ f, captionPart = View.editable "figcaption" (i18n "Write caption…")
            attributes.caption f (focusCaption setFocus)
            (fun value => setAttributes [Entry.caption value]) true true) ∧
        (¬ (attributes.caption.NonEmpty ∨ focus.truthy = true) →
          captionPart = View.null)) ∧
      (edit i18n attributes setAttributes focus setFocus).imgs =
        [[("src", attributes.url), ("alt", attributes.alt)]] ∧
      ((edit i18n attributes setAttributes focus setFocus).editables = 1 ↔
        (attributes.caption.NonEmpty ∨ focus.truthy = true)) ∧
      ((edit i18n attributes setAttributes focus setFocus).editables = 0 ↔
        ¬ (attributes.caption.NonEmpty ∨ focus.truthy = true))) ∧
    ((attributes.url = none ∨ attributes.url = some "") →
      edit i18n attributes setAttributes focus setFocus =
        View.placeholder (i18n "Drag image here or insert from media library")
          "format-image" (i18n "Image") "blocks-image"
          [View.button true [View.text (i18n "Insert from Media Library")]] ∧
      (edit i18n attributes setAttributes focus setFocus).imgs = [] ∧
      (edit i18n attributes setAttributes focus setFocus).editables = 0) := by
  constructor
  · intro u hu hne
    have hurl : strTruthy attributes.url = true := by
      simp [hu, strTruthy, hne]
    by_cases hc : attributes.caption.NonEmpty ∨ focus.truthy = true
    · have hcond : ((attributes.caption.truthy && decide (attributes.caption.length > 0))
          || focus.truthy) = true := by
        rcases hc with hc | hc
        · simp [(caption_test_iff attributes.caption).2 hc]
        · simp [hc]
      have hedit : edit i18n attributes setAttributes focus setFocus =
          View.dom "figure" [("className", some "blocks-image")]
            [View.dom "img" [("src", attributes.url), ("alt", attributes.alt)] [],
             View.editable "figcaption" (i18n "Write caption…") attributes.caption
              (if focus.truthy && focus.editable == Prim.str "caption" then focus
               else FocusVal.undefined)
              (focusCaption setFocus)
              (fun value => setAttributes [Entry.caption value]) true true] := by
        simp only [edit, hurl, hcond]
        rfl
      refine ⟨⟨_, hedit, fun _ => ⟨_, rfl⟩, fun hn => absurd hc hn⟩, ?_, ?_, ?_⟩
      · rw [hedit]
        simp [View.imgs, View.imgsList]
      · rw [hedit]
        simp [View.editables, View.editablesList, hc]
      · rw [hedit]
        simp [View.editables, View.editablesList, hc]
    · have hcond : ((attributes.caption.truthy && decide (attributes.caption.length > 0))
          || focus.truthy) = false := by
        rw [Bool.eq_false_iff]
        intro hcond
        rw [Bool.or_eq_true] at hcond
        rcases hcond with h1 | h1
        · exact hc (Or.inl ((caption_test_iff attributes.caption).1 h1))
        · exact hc (Or.inr h1)
      have hedit : edit i18n attributes setAttributes focus setFocus =
          View.dom "figure" [("className", some "blocks-image")]
            [View.dom "img" [("src", attributes.url), ("alt", attributes.alt)] [],
             View.null] := by
        simp only [edit, hurl, hcond]
        rfl
      refine ⟨⟨_, hedit, fun h => absurd h hc, fun _ => rfl⟩, ?_, ?_, ?_⟩
      · rw [hedit]
        simp [View.imgs, View.imgsList]
      · rw [hedit]
        simp [View.editables, View.editablesList, hc]
      · rw [hedit]
        simp [View.editables, View.editablesList, hc]
  · intro hu
    have hurl : strTruthy attributes.url = false := by
      rcases hu with hu | hu <;> simp [hu, strTruthy]
    have hedit : edit i18n attributes setAttributes focus setFocus =
        View.placeholder (i18n "Drag image here or insert from media library")
          "format-image" (i18n "Image") "blocks-image"
          [View.button true [View.text (i18n "Insert from Media Library")]] := by
      simp only [edit, hurl]
      rfl
    refine ⟨hedit, ?_, ?_⟩
    · rw [hedit]
      simp [View.imgs, View.imgsList]
    · rw [hedit]
      simp [View.editables, View.editablesList]

/-- Witness of C9: the example of the spec.  With `url = 'x.png'`, an empty
caption and no focus the view has no caption `Editable`; with the focus set
to the caption region it has one; without `url` there is no image. -/
theorem edit_caption_visibility_witness :
    (edit id ⟨some "x.png", none, Caption.str "", none⟩ (fun _ s => s)
        FocusVal.undefined (fun _ s => s) : View Unit).editables = 0 ∧
    (edit id ⟨some "x.png", none, Caption.str "", none⟩ (fun _ s => s)
        (FocusVal.obj (AList.singleton "editable" (Prim.str "caption")))
        (fun _ s => s) : View Unit).editables = 1 ∧
    (edit id ⟨none, none, Caption.str "c", none⟩ (fun _ s => s)
        FocusVal.undefined (fun _ s => s) : View Unit).imgs = [] := by
  refine ⟨?_, ?_, ?_⟩
  · exact ((edit_caption_visibility id ⟨some "x.png", none, Caption.str "", none⟩
      (fun _ s => s) FocusVal.undefined (fun _ s => s)).1 "x.png" rfl (by decide)).2.2.2.2
      (by
        rintro (h | h)
        · rcases h with ⟨s, hs, h⟩ | ⟨x, xs, h⟩
          · injection h with h
            exact hs h.symm
          · cases h
        · cases h)
  · exact ((edit_caption_visibility id ⟨some "x.png", none, Caption.str "", none⟩
      (fun _ s => s) (FocusVal.obj (AList.singleton "editable" (Prim.str "caption")))
      (fun _ s => s)).1 "x.png" rfl (by decide)).2.2.1.2 (Or.inr rfl)
  · exact ((edit_caption_visibility id ⟨none, none, Caption.str "c", none⟩
      (fun _ s => s) FocusVal.undefined (fun _ s => s)).2 (Or.inl rfl)).2.1

/-! ## Properties of `focusCaption` -/

/-- C10, as stated, fails: when the focus value has an `editable` field of its
own, here `{ editable: 'title' }`, the spread written after
`editable: 'caption'` overwrites it, and `setFocus` receives a descriptor whose
`editable` field is `'title'`, not `'caption'`. -/
theorem focusCaption_editable_overwritten :
    ∃ d : Obj,
      focusCaption record (FocusVal.obj (AList.singleton "editable" (Prim.str "title"))) [] =
        [d] ∧
      Obj.get d "editable" = Prim.str "title" ∧
      Obj.get d "editable" ≠ Prim.str "caption" :=
  ⟨_, rfl, by decide, by decide⟩

/-- C10, amended: for every focus value passed to `focusCaption`, `setFocus`
is called exactly once, with a descriptor that has every field of the focus
value with the value it has there; its `editable` field is `'caption'` when
the focus value has no `editable` field of its own (in particular when it is
`undefined` or `null`), and is the focus value's own `editable` otherwise; it
has no further field. -/
theorem focusCaption_descriptor (focusValue : FocusVal) (log : List Obj) :
    ∃ d : Obj,
      focusCaption record focusValue log = log ++ [d] ∧
      (∀ (σ : Type) (setFocus : Obj → σ → σ),
        focusCaption setFocus focusValue = setFocus d) ∧
      (∀ k : String, k ∈ focusValue.ownProps →
        AList.lookup k d = AList.lookup k focusValue.ownProps) ∧
      ("editable" ∉ focusValue.ownProps → Obj.get d "editable" = Prim.str "caption") ∧
      ("editable" ∈ focusValue.ownProps → Obj.get d "editable" = focusValue.editable) ∧
      (∀ k : String, k ∉ focusValue.ownProps → k ≠ "editable" → AList.lookup k d = none) ∧
      (focusValue = FocusVal.undefined ∨ focusValue = FocusVal.null →
        d = AList.singleton "editable" (Prim.str "caption")) := by
  refine ⟨Obj.spread (AList.singleton "editable" (Prim.str "caption")) focusValue.ownProps,
    rfl, fun _ _ => rfl, ?_, ?_, ?_, ?_, ?_⟩
  · intro k hk
    exact AList.lookup_union_left hk
  · intro hk
    simp only [Obj.get, Obj.spread]
    rw [AList.lookup_union_right hk]
    rfl
  · intro hk
    simp only [Obj.get, Obj.spread]
    rw [AList.lookup_union_left hk]
    cases focusValue with
    | undefined => exact absurd hk (AList.not_mem_empty _)
    | null => exact absurd hk (AList.not_mem_empty _)
    | obj o => rfl
  · intro k hk hne
    simp only [Obj.spread]
    rw [AList.lookup_union_right hk]
    simp [AList.lookup, AList.singleton, List.dlookup, Ne.symm hne]
  · rintro (h | h) <;> subst h <;> rfl

/-- Witness of the amended C10: a focus value without an `editable` field,
`{ offset: 3 }`, gets `editable: 'caption'` and keeps `offset`. -/
theorem focusCaption_descriptor_witness :
    ∃ d : Obj,
      focusCaption record (FocusVal.obj (AList.singleton "offset" (Prim.num 3))) [] = [d] ∧
      Obj.get d "editable" = Prim.str "caption" ∧
      AList.lookup "offset" d = some (Prim.num 3) := by
  obtain ⟨d, hd, _, hkeep, hcap, _, _, _⟩ :=
    focusCaption_descriptor (FocusVal.obj (AList.singleton "offset" (Prim.num 3))) []
  exact ⟨d, hd, hcap (by decide), (hkeep "offset" (by decide)).trans (by decide)⟩

end ImageBlock
